import Mathlib

/-!
# Verification of gqlms (GraphQL Mutation Authorization Tester)

Shallow embedding of the final variant of `main.go` (the third revision in
the repository source): the authorization classifier
(`containsDeniedMessage`), the payload builder (`buildMutationPayload`),
the mutation catalog fetch (`getMutations`), the testing loop
(`testMutations`), the header handling in `main` (strip of unauth headers),
and the request-file parser (`parseRequestFile`).

Machine strings are modelled as Lean `String`/`List Char`; the bodies and
headers handled by the tool are ASCII, so `strings.ToLower` /
`net/textproto` case mapping on the relevant fragment coincide with the
ASCII case maps used below.
-/

namespace Gqlms

/-! ## String helpers mirroring the `strings` package operations used -/

/-- `strHasPre l pat` : `pat` is a prefix of `l` (char-list level helper for
`strings.Contains`). -/
def strHasPre : List Char → List Char → Bool
  | _, [] => true
  | [], _ :: _ => false
  | a :: as, b :: bs => a == b && strHasPre as bs

/-- `strHasSub l pat` : `pat` occurs as a contiguous substring of `l`
(embedding of `strings.Contains` at the char-list level). -/
def strHasSub : List Char → List Char → Bool
  | [], pat => pat.isEmpty
  | a :: as, pat => strHasPre (a :: as) pat || strHasSub as pat

/-- `strings.Contains s pat` on Lean strings. -/
def containsSub (s pat : String) : Bool :=
  strHasSub s.toList pat.toList

/-- `strings.HasPrefix` on Lean strings. -/
def goHasPre (s pre : String) : Bool :=
  strHasPre s.toList pre.toList

/-- ASCII lowering of one character, the fragment of Go `strings.ToLower`
relevant to the ASCII bodies the tool inspects. -/
def goLowerChar (c : Char) : Char :=
  if 65 ≤ c.toNat ∧ c.toNat ≤ 90 then Char.ofNat (c.toNat + 32) else c

/-- Embedding of `strings.ToLower` (ASCII fragment). -/
def goToLower (s : String) : String :=
  (s.toList.map goLowerChar).asString

/-! ## Authorization classifier (`containsDeniedMessage`, main.go) -/

/-- A completed HTTP response as the classifier sees it: status code and
fully-buffered body. -/
structure Response where
  statusCode : Nat
  body : String
  deriving Repr, DecidableEq

/-- Embedding of `containsDeniedMessage` (final variant of main.go):
`true` (Denied) when the status is 403 or 401, otherwise when the
lower-cased body contains the substring `"unauthorized"`. -/
def containsDeniedMessage (resp : Response) : Bool :=
  if resp.statusCode == 403 || resp.statusCode == 401 then true
  else containsSub (goToLower resp.body) "unauthorized"

/-! ## Mutation catalog data model (types `Mutation`, `IntrospectionResponse`) -/

/-- The `ofType` leaf of an argument's type reference (`*struct{Name string}`;
Go decodes a JSON null name to the zero value `""`). -/
structure OfTypeRef where
  name : String
  deriving Repr, DecidableEq

/-- An argument's type reference as introspected (`name`, `kind`, optional
`ofType`). -/
structure TypeRef where
  name : String
  kind : String
  ofType : Option OfTypeRef
  deriving Repr, DecidableEq

/-- One declared argument of a mutation (`args` element of `Mutation`). -/
structure MutationArg where
  name : String
  type : TypeRef
  deriving Repr, DecidableEq

/-- One mutation field of the schema (`type Mutation` in main.go). -/
structure Mutation where
  name : String
  args : List MutationArg
  deriving Repr, DecidableEq

/-- `IntrospectionResponse`: only `Data.__schema.mutationType.fields` is
consumed; its Go zero value has a nil `Fields` slice, modelled as `[]`. -/
structure IntrospectionResponse where
  fields : List Mutation
  deriving Repr, DecidableEq

/-! ## Payload builder (`buildMutationPayload`, main.go) -/

/-- A JSON value appearing in the `variables` object of a payload. -/
inductive VarVal where
  | vstr : String → VarVal
  | vobj : List (String × String) → VarVal
  deriving Repr, DecidableEq

/-- The marshalled mutation payload: `operationName`, `query`, `variables`.
`json.Marshal` of the Go map is deterministic (keys sorted), so the
structural value below determines the wire bytes. -/
structure Payload where
  operationName : String
  query : String
  vars : List (String × VarVal)
  deriving Repr, DecidableEq

/-- Embedding of `buildMutationPayload`: the input type name is
`<name>Input`, the variables are the fixed placeholder object
`{"testField": "test_value"}`, and the query is produced by the
`fmt.Sprintf` format `mutation %s($input: %s!) { %s(input: $input) {
__typename } }`. The `endpoint`, `headers` and `baseRequestBody`
parameters of the Go function are unused by its body and omitted. -/
def buildMutationPayload (m : Mutation) : Payload :=
  let inputType := m.name ++ "Input"
  let inputFields : List (String × String) := [("testField", "test_value")]
  let query :=
    "mutation " ++ m.name ++ "($input: " ++ inputType ++ "!) \x7b " ++
      m.name ++ "(input: $input) \x7b __typename \x7d \x7d"
  { operationName := m.name
    query := query
    vars := [("input", VarVal.vobj inputFields)] }

/-- The `deleteUser(id: ID!)` mutation of the spec's end-to-end scenario,
as introspection delivers it (`ID!` arrives as kind `NON_NULL` with
`ofType.name = "ID"`). -/
def deleteUserMutation : Mutation :=
  { name := "deleteUser"
    args := [{ name := "id", type := { name := "", kind := "NON_NULL", ofType := some { name := "ID" } } }] }

/-- The `createUser(input: CreateUserInput!)` mutation of the spec's
end-to-end scenario. -/
def createUserMutation : Mutation :=
  { name := "createUser"
    args := [{ name := "input", type := { name := "", kind := "NON_NULL", ofType := some { name := "CreateUserInput" } } }] }

/-! ## Mutation catalog fetch (`getMutations`, main.go) -/

/-- Input to `getMutations` as seen from its decision structure: either the
transport failed (`Except.error` from `sendRequest`), or a body arrived and
`json.Unmarshal` either produced a decoded `IntrospectionResponse`
(`some r`) or failed (`none`; the error is discarded and the target struct
keeps its zero value). -/
def unmarshalIntrospection (parsed : Option IntrospectionResponse) : IntrospectionResponse :=
  parsed.getD { fields := [] }

/-- Embedding of `getMutations`: a transport error aborts the run
(`os.Exit(1)` after printing a diagnostic, modelled as `Except.error`
carrying the diagnostic); otherwise the decoded fields are returned —
on a parse failure the zero value's empty field list. -/
def getMutations (transport : Except String (Option IntrospectionResponse)) :
    Except String (List Mutation) :=
  match transport with
  | Except.error e => Except.error ("Error fetching mutations: " ++ e)
  | Except.ok parsed => Except.ok (unmarshalIntrospection parsed).fields

/-! ## Testing loop (`testMutations`, main.go) -/

/-- Verdict of one per-mutation request: `sendRequest` result, `none`
meaning a transport error. A transport error or a denied classification
sends the mutation to the denied sink. -/
def deniedOutcome (result : Option Response) : Bool :=
  match result with
  | none => true
  | some resp => containsDeniedMessage resp

/-- The two result sinks and the two counters accumulated by
`testMutations`. -/
structure SinkState where
  allowed : List String
  unallowed : List String
  allowedCount : Nat
  unallowedCount : Nat
  deriving Repr, DecidableEq

/-- One iteration of the `testMutations` loop body on mutation `m`,
where `env` gives the response of `sendRequest` for each mutation. -/
def testStep (env : Mutation → Option Response) (st : SinkState) (m : Mutation) : SinkState :=
  if deniedOutcome (env m) then
    { st with unallowed := st.unallowed ++ [m.name], unallowedCount := st.unallowedCount + 1 }
  else
    { st with allowed := st.allowed ++ [m.name], allowedCount := st.allowedCount + 1 }

/-- Embedding of `testMutations`: fold of the loop body over the mutation
list, starting from empty sinks and zero counters. -/
def testMutations (env : Mutation → Option Response) (ms : List Mutation) : SinkState :=
  ms.foldl (testStep env) { allowed := [], unallowed := [], allowedCount := 0, unallowedCount := 0 }

/-- The total printed by the summary (`allowedCount + unallowedCount`). -/
def summaryTotal (st : SinkState) : Nat :=
  st.allowedCount + st.unallowedCount

/-! ## Header map and the unauth strip in `main` (main.go) -/

/-- The credential header map, modelled as an association list with
update-or-append insertion (Go `map[string]string` lookup semantics). -/
abbrev Headers := List (String × String)

/-- Map write `hs[k] = v`: replace the value of an existing key, else
append the binding. -/
def insertA (hs : Headers) (k v : String) : Headers :=
  match hs with
  | [] => [(k, v)]
  | (k0, v0) :: rest =>
    if k0 = k then (k0, v) :: rest else (k0, v0) :: insertA rest k v

/-- Map read `hs[k]`. -/
def lookupA (hs : Headers) (k : String) : Option String :=
  match hs with
  | [] => none
  | (k0, v0) :: rest => if k0 = k then some v0 else lookupA rest k

/-- Go `delete(headers, h)` on the association-list model. -/
def deleteA (hs : Headers) (k : String) : Headers :=
  hs.filter (fun kv => decide (kv.1 ≠ k))

/-- The strip loop of `main`: `for _, h := range unauthList { delete(headers, h) }`. -/
def stripHeaders (hs : Headers) (unauthList : List String) : Headers :=
  unauthList.foldl deleteA hs

/-- The header-relevant events of one run of `main`, in program order:
the schema fetch, then — only when the unauth list is non-empty — the strip
(`if len(unauthList) > 0`), then one request per mutation name. -/
inductive RunEvent where
  | fetchSchema : RunEvent
  | stripAuth : List String → RunEvent
  | testMutation : String → RunEvent

/-- The event sequence `main` performs after parsing the request file. -/
def mainEvents (unauthList : List String) (names : List String) : List RunEvent :=
  RunEvent.fetchSchema ::
    ((if unauthList.length > 0 then [RunEvent.stripAuth unauthList] else []) ++
      names.map RunEvent.testMutation)

/-- Effect of one event on the header map: only the strip writes it;
requests read it (`req.Header.Set` copies into the outgoing request). -/
def applyEvent (hs : Headers) : RunEvent → Headers
  | RunEvent.fetchSchema => hs
  | RunEvent.stripAuth ul => stripHeaders hs ul
  | RunEvent.testMutation _ => hs

/-- The successive values of the header map over a run: the initial map
followed by its value after each event. -/
def headerStates (h0 : Headers) (evs : List RunEvent) : List Headers :=
  evs.scanl applyEvent h0

/-- Number of positions at which consecutive header-map states differ,
i.e. how many times the map is mutated over the run. -/
def numChanges : List Headers → Nat
  | [] => 0
  | [_] => 0
  | a :: b :: rest => (if a = b then 0 else 1) + numChanges (b :: rest)

/-! ## Request-file parser (`parseRequestFile`, main.go) -/

/-- Byte (char) is valid in a MIME header token — digits, letters, and the
marks `! # $ % & \x27 * + - . ^ _ \x60 | ~` (Go `net/textproto`
`validHeaderFieldByte`, written by code point to keep the table explicit). -/
def isTokenChar (c : Char) : Bool :=
  let n := c.toNat
  (48 ≤ n && n ≤ 57) || (65 ≤ n && n ≤ 90) || (97 ≤ n && n ≤ 122) ||
    n == 33 || n == 35 || n == 36 || n == 37 || n == 38 || n == 39 ||
    n == 42 || n == 43 || n == 45 || n == 46 || n == 94 || n == 95 ||
    n == 96 || n == 124 || n == 126

/-- Case map of one canonicalization step: upper-case the char when it
starts a dash-separated word, lower-case it otherwise (ASCII, as in
`net/textproto`; `Char.toUpper`/`Char.toLower` are exactly the ASCII
maps). -/
def canonChar (upper : Bool) (c : Char) : Char :=
  if upper then c.toUpper else c.toLower

/-- The canonicalization loop of `net/textproto`: `upper` starts `true` and
is reset after each character to whether that character was a dash. -/
def canonLoop (upper : Bool) : List Char → List Char
  | [] => []
  | c :: rest =>
    let c2 := canonChar upper c
    c2 :: canonLoop (c2 == '-') rest

/-- Embedding of `http.CanonicalHeaderKey`: a key containing any byte that
is not a valid token byte is returned unchanged; otherwise the first letter
and every letter following a dash are upper-cased and all other letters
lower-cased. -/
def canonicalHeaderKey (s : String) : String :=
  if s.toList.all isTokenChar then (canonLoop true s.toList).asString else s

/-- `strings.TrimSpace` (ASCII whitespace fragment). -/
def trimSpace (s : String) : String :=
  ((s.toList.dropWhile Char.isWhitespace).reverse.dropWhile Char.isWhitespace).reverse.asString

/-- Worker for `strings.Fields`: accumulate the current field (reversed)
and cut at whitespace runs. -/
def wsSplitAux : List Char → List Char → List (List Char)
  | cur, [] => if cur.isEmpty then [] else [cur.reverse]
  | cur, c :: rest =>
    if c.isWhitespace then
      if cur.isEmpty then wsSplitAux [] rest
      else cur.reverse :: wsSplitAux [] rest
    else wsSplitAux (c :: cur) rest

/-- `strings.Fields`: split on whitespace runs, dropping empty fields. -/
def fieldsGo (s : String) : List String :=
  (wsSplitAux [] s.toList).map List.asString

/-- `strings.SplitN(line, ":", 2)` when a colon is present: the text before
the first colon and everything after it. -/
def splitOnceColon : List Char → Option (List Char × List Char)
  | [] => none
  | c :: rest =>
    if c == ':' then some ([], rest)
    else (splitOnceColon rest).map (fun p => (c :: p.1, p.2))

/-- Scanner state of the `parseRequestFile` line loop. -/
structure ParseState where
  headers : Headers
  endpointPath : String
  body : String
  isBody : Bool

/-- One line of the `parseRequestFile` loop (final variant of main.go):
a blank line switches to body mode; body lines accumulate; a `POST` line
sets the endpoint path from its second field; any other line containing a
colon stores a header under the canonicalized, trimmed name. -/
def parseLine (st : ParseState) (line : String) : ParseState :=
  if line = "" then { st with isBody := true }
  else if st.isBody then { st with body := st.body ++ line }
  else if goHasPre line "POST" then
    match fieldsGo line with
    | _ :: p :: _ => { st with endpointPath := p }
    | _ => st
  else if line.toList.any (fun c => c == ':') then
    match splitOnceColon line.toList with
    | some (k, v) =>
      let key := canonicalHeaderKey (trimSpace k.asString)
      let val := trimSpace v.asString
      { st with headers := insertA st.headers key val }
    | none => st
  else st

/-- Embedding of `parseRequestFile` (final variant of main.go) over the
scanned lines: runs the line loop, then rejects an empty endpoint path, and
completes a path-only endpoint from the `Host` header and the SSL flag. -/
def parseRequestFile (lines : List String) (useSSL : Bool) :
    Except String (String × Headers × String) :=
  let st := lines.foldl parseLine { headers := [], endpointPath := "", body := "", isBody := false }
  if st.endpointPath = "" then Except.error "No endpoint path found in request file"
  else if goHasPre st.endpointPath "http://" || goHasPre st.endpointPath "https://" then
    Except.ok (st.endpointPath, st.headers, st.body)
  else
    match lookupA st.headers "Host" with
    | none => Except.error "No Host header found, can\x27t determine endpoint"
    | some host =>
      Except.ok ((if useSSL then "https" else "http") ++ "://" ++ host ++ st.endpointPath,
        st.headers, st.body)

end Gqlms

/-! # Theorems -/

namespace Gqlms

/-- Closed form of the `testMutations` fold from an arbitrary start state. -/
theorem testMutations_foldl_closed (env : Mutation → Option Response) :
    ∀ (ms : List Mutation) (st : SinkState),
      ms.foldl (testStep env) st =
        { allowed := st.allowed ++ (ms.filter (fun m => !deniedOutcome (env m))).map Mutation.name
          unallowed := st.unallowed ++ (ms.filter (fun m => deniedOutcome (env m))).map Mutation.name
          allowedCount := st.allowedCount + (ms.filter (fun m => !deniedOutcome (env m))).length
          unallowedCount := st.unallowedCount + (ms.filter (fun m => deniedOutcome (env m))).length } := by
  intro ms
  induction ms with
  | nil => intro st; simp
  | cons m rest ih =>
    intro st
    by_cases h : deniedOutcome (env m) = true
    · simp [testStep, h, ih, List.filter_cons]
      omega
    · simp only [Bool.not_eq_true] at h
      simp [testStep, h, ih, List.filter_cons]
      omega

theorem count_filter_split (env : Mutation → Option Response) (s : String) :
    ∀ ms : List Mutation,
      ((ms.filter (fun m => !deniedOutcome (env m))).map Mutation.name).count s +
        ((ms.filter (fun m => deniedOutcome (env m))).map Mutation.name).count s =
        (ms.map Mutation.name).count s := by
  intro ms
  induction ms with
  | nil => simp
  | cons m rest ih =>
    by_cases h : deniedOutcome (env m) = true
    · simp [List.filter_cons, h, List.count_cons]
      omega
    · simp only [Bool.not_eq_true] at h
      simp [List.filter_cons, h, List.count_cons]
      omega

end Gqlms

/-- C1: in every run of the testing loop, each mutation's name goes to
exactly one of the two sinks with the matching counter incremented, the
counters equal the sink lengths, and the summary satisfies
`total = allowedCount + unallowedCount = |ms|`. -/
theorem claim_c1_loop_partition :
    ∀ (env : Gqlms.Mutation → Option Gqlms.Response) (ms : List Gqlms.Mutation),
      Gqlms.summaryTotal (Gqlms.testMutations env ms) = ms.length ∧
      (Gqlms.testMutations env ms).allowedCount = (Gqlms.testMutations env ms).allowed.length ∧
      (Gqlms.testMutations env ms).unallowedCount = (Gqlms.testMutations env ms).unallowed.length ∧
      ∀ s : String,
        (Gqlms.testMutations env ms).allowed.count s +
          (Gqlms.testMutations env ms).unallowed.count s =
          (ms.map Gqlms.Mutation.name).count s := by
  intro env ms
  have hclosed := Gqlms.testMutations_foldl_closed env ms
    { allowed := [], unallowed := [], allowedCount := 0, unallowedCount := 0 }
  refine ⟨?_, ?_, ?_, ?_⟩
  · simp [Gqlms.testMutations, hclosed, Gqlms.summaryTotal]
    have := List.length_eq_length_filter_add (l := ms) (fun m => Gqlms.deniedOutcome (env m))
    omega
  · simp [Gqlms.testMutations, hclosed]
  · simp [Gqlms.testMutations, hclosed]
  · intro s
    simp [Gqlms.testMutations, hclosed]
    exact Gqlms.count_filter_split env s ms

/-- C2: for every response whose status code is 401 or 403, the classifier
returns Denied, regardless of the body's content. -/
theorem claim_c2_status_401_403_denied :
    ∀ body : String,
      Gqlms.containsDeniedMessage ⟨401, body⟩ = true ∧
      Gqlms.containsDeniedMessage ⟨403, body⟩ = true := by
  intro body
  constructor <;> simp [Gqlms.containsDeniedMessage]

/-- C3 counterexample: the spec's own example — status 200 with a GraphQL
error envelope whose `extensions.code` is `UNAUTHENTICATED` — is classified
Allowed by the code, because the lower-cased body contains neither
`"unauthorized"` nor triggers the status check; the classifier never parses
the envelope. -/
theorem claim_c3_counterexample :
    Gqlms.containsDeniedMessage
      ⟨200, "\x7b\"errors\":[\x7b\"message\":\"Not authorized\",\"extensions\":\x7b\"code\":\"UNAUTHENTICATED\"\x7d\x7d],\"data\":null\x7d"⟩ = false := by
  decide

/-- C3 amended: the classifier does not parse the GraphQL error envelope;
for any status it returns Denied whenever the lower-cased raw body contains
the substring `"unauthorized"` — in particular a 200 envelope whose error
message is `"Unauthorized"` is Denied, while the spec's `UNAUTHENTICATED`
example is not. -/
theorem claim_c3_amended_substring_denied :
    (∀ (sc : Nat) (body : String),
      Gqlms.containsSub (Gqlms.goToLower body) "unauthorized" = true →
      Gqlms.containsDeniedMessage ⟨sc, body⟩ = true) ∧
    Gqlms.containsDeniedMessage
      ⟨200, "\x7b\"errors\":[\x7b\"message\":\"Unauthorized\"\x7d],\"data\":null\x7d"⟩ = true := by
  constructor
  · intro sc body h
    by_cases h43 : (sc == 403 || sc == 401) = true
    · simp [Gqlms.containsDeniedMessage, h43]
    · simp [Gqlms.containsDeniedMessage, h43, h]
  · decide

/-- Witness for `claim_c3_amended_substring_denied`. -/
theorem claim_c3_amended_substring_denied_witness :
    Gqlms.containsDeniedMessage ⟨200, "unauthorized"⟩ = true :=
  claim_c3_amended_substring_denied.1 200 "unauthorized" (by decide)

/-- C4: a response whose status is neither 401 nor 403 and whose
lower-cased body does not contain `"unauthorized"` (the code's only body
denial signal) is classified Allowed; in particular a 400 validation error
and 5xx server errors without denial vocabulary are Allowed. -/
theorem claim_c4_no_signal_allowed :
    (∀ (sc : Nat) (body : String),
      sc ≠ 401 → sc ≠ 403 →
      Gqlms.containsSub (Gqlms.goToLower body) "unauthorized" = false →
      Gqlms.containsDeniedMessage ⟨sc, body⟩ = false) ∧
    Gqlms.containsDeniedMessage
      ⟨400, "\x7b\"errors\":[\x7b\"message\":\"Unknown argument \x27input\x27\"\x7d]\x7d"⟩ = false ∧
    Gqlms.containsDeniedMessage ⟨500, "Internal Server Error"⟩ = false ∧
    Gqlms.containsDeniedMessage
      ⟨503, "\x7b\"errors\":[\x7b\"message\":\"internal failure\"\x7d]\x7d"⟩ = false := by
  refine ⟨?_, by decide, by decide, by decide⟩
  intro sc body h1 h2 h3
  have h43 : (sc == 403 || sc == 401) = false := by
    simp only [Bool.or_eq_false_iff, beq_eq_false_iff_ne, ne_eq]
    exact ⟨h2, h1⟩
  simp [Gqlms.containsDeniedMessage, h43, h3]

/-- Witness for `claim_c4_no_signal_allowed`. -/
theorem claim_c4_no_signal_allowed_witness :
    Gqlms.containsDeniedMessage ⟨400, "bad request"⟩ = false :=
  claim_c4_no_signal_allowed.1 400 "bad request" (by decide) (by decide) (by decide)

/-- C9: for statuses other than 401/403 the verdict is exactly the
`"unauthorized"` substring test on the lower-cased raw body — so a 200
response whose data merely mentions the word is Denied, while denial worded
only as forbidden / access denied / restricted is Allowed. -/
theorem claim_c9_body_substring_only :
    (∀ (sc : Nat) (body : String),
      sc ≠ 401 → sc ≠ 403 →
      Gqlms.containsDeniedMessage ⟨sc, body⟩ =
        Gqlms.containsSub (Gqlms.goToLower body) "unauthorized") ∧
    Gqlms.containsDeniedMessage
      ⟨200, "\x7b\"data\":\x7b\"note\":\"Unauthorized users are logged\"\x7d\x7d"⟩ = true ∧
    Gqlms.containsDeniedMessage
      ⟨200, "\x7b\"errors\":[\x7b\"message\":\"Forbidden resource\"\x7d,\x7b\"message\":\"Access denied. Restricted.\"\x7d]\x7d"⟩ = false := by
  refine ⟨?_, by decide, by decide⟩
  intro sc body h1 h2
  have h43 : (sc == 403 || sc == 401) = false := by
    simp only [Bool.or_eq_false_iff, beq_eq_false_iff_ne, ne_eq]
    exact ⟨h2, h1⟩
  simp [Gqlms.containsDeniedMessage, h43]

/-- Witness for `claim_c9_body_substring_only`. -/
theorem claim_c9_body_substring_only_witness :
    Gqlms.containsDeniedMessage ⟨200, "all good"⟩ =
      Gqlms.containsSub (Gqlms.goToLower "all good") "unauthorized" :=
  claim_c9_body_substring_only.1 200 "all good" (by decide) (by decide)

/-- C6: the catalog fetch turns a transport failure into a run-aborting
diagnostic, and a body that fails to decode as the expected schema shape
into an empty mutation list rather than an error. -/
theorem claim_c6_fetch_error_policy :
    (∀ e : String,
      Gqlms.getMutations (Except.error e) =
        Except.error ("Error fetching mutations: " ++ e)) ∧
    Gqlms.getMutations (Except.ok none) = Except.ok [] :=
  ⟨fun _ => rfl, rfl⟩

/-- C10: the payload depends on the mutation's name alone — for every
mutation the produced payload has the fixed shape (operation name = the
mutation's name, the single `$input: <name>Input!` query, placeholder
variables), and two mutations with equal names but arbitrary argument
metadata yield identical payloads. -/
theorem claim_c10_payload_name_only :
    (∀ m : Gqlms.Mutation,
      Gqlms.buildMutationPayload m =
        { operationName := m.name
          query := "mutation " ++ m.name ++ "($input: " ++ m.name ++
            "Input!) \x7b " ++ m.name ++ "(input: $input) \x7b __typename \x7d \x7d"
          vars := [("input", Gqlms.VarVal.vobj [("testField", "test_value")])] }) ∧
    (∀ m₁ m₂ : Gqlms.Mutation, m₁.name = m₂.name →
      Gqlms.buildMutationPayload m₁ = Gqlms.buildMutationPayload m₂) := by
  constructor
  · intro m
    simp [Gqlms.buildMutationPayload, String.append_assoc]
  · intro m₁ m₂ h
    simp [Gqlms.buildMutationPayload, h]

/-- Witness for `claim_c10_payload_name_only`: a mutation with an argument
list and one without produce the same payload when their names agree. -/
theorem claim_c10_payload_name_only_witness :
    Gqlms.deleteUserMutation.name = (Gqlms.Mutation.mk "deleteUser" []).name ∧
    Gqlms.buildMutationPayload Gqlms.deleteUserMutation =
      Gqlms.buildMutationPayload (Gqlms.Mutation.mk "deleteUser" []) :=
  ⟨rfl, claim_c10_payload_name_only.2 Gqlms.deleteUserMutation
    (Gqlms.Mutation.mk "deleteUser" []) rfl⟩

/-- C5 counterexample: for `deleteUser(id: ID!)` the builder does not emit
the per-argument declaration `$id: ID!` nor variables keyed by `id`; it
emits the fixed `$input: deleteUserInput!` query and the placeholder
variables object. -/
theorem claim_c5_counterexample :
    (Gqlms.buildMutationPayload Gqlms.deleteUserMutation).query =
      "mutation deleteUser($input: deleteUserInput!) \x7b deleteUser(input: $input) \x7b __typename \x7d \x7d" ∧
    Gqlms.containsSub (Gqlms.buildMutationPayload Gqlms.deleteUserMutation).query "$id" = false ∧
    (Gqlms.buildMutationPayload Gqlms.deleteUserMutation).vars.lookup "id" = none ∧
    (Gqlms.buildMutationPayload Gqlms.deleteUserMutation).vars =
      [("input", Gqlms.VarVal.vobj [("testField", "test_value")])] := by
  refine ⟨by decide, by decide, by decide, by decide⟩

/-- C5 amended: the synthesizer ignores the declared argument list
entirely: every mutation gets the single declaration `$input: <name>Input!`
with usage `(input: $input)` and the fixed placeholder variables
`{"input": {"testField": "test_value"}}` — for `createUser` the declared
type is `createUserInput!` (not `CreateUserInput!`), and for `deleteUser`
no `$id: ID!` declaration exists. -/
theorem claim_c5_amended_fixed_payload :
    (∀ m : Gqlms.Mutation,
      (Gqlms.buildMutationPayload m).query =
        "mutation " ++ m.name ++ "($input: " ++ m.name ++ "Input!) \x7b " ++
          m.name ++ "(input: $input) \x7b __typename \x7d \x7d" ∧
      (Gqlms.buildMutationPayload m).vars =
        [("input", Gqlms.VarVal.vobj [("testField", "test_value")])]) ∧
    (Gqlms.buildMutationPayload Gqlms.createUserMutation).query =
      "mutation createUser($input: createUserInput!) \x7b createUser(input: $input) \x7b __typename \x7d \x7d" ∧
    Gqlms.containsSub (Gqlms.buildMutationPayload Gqlms.createUserMutation).query "CreateUserInput" = false := by
  refine ⟨?_, by decide, by decide⟩
  intro m
  constructor
  · simp [Gqlms.buildMutationPayload, String.append_assoc]
  · simp [Gqlms.buildMutationPayload]

namespace Gqlms

/-- The per-mutation requests leave the header map unchanged: scanning the
test events from any map yields a constant state list. -/
theorem scanl_testEvents (h : Headers) :
    ∀ names : List String,
      List.scanl applyEvent h (names.map RunEvent.testMutation) =
        List.replicate (names.length + 1) h := by
  intro names
  induction names with
  | nil => simp
  | cons n rest ih =>
    simp only [List.map_cons, List.scanl_cons, applyEvent]
    rw [ih]
    simp [List.replicate_succ]

theorem numChanges_cons_cons (a b : Headers) (l : List Headers) :
    numChanges (a :: b :: l) = (if a = b then 0 else 1) + numChanges (b :: l) := by
  simp [numChanges]

theorem numChanges_cons_replicate (h : Headers) :
    ∀ n : Nat, numChanges (h :: List.replicate n h) = 0 := by
  intro n
  induction n with
  | zero => rfl
  | succ m ih =>
    rw [List.replicate_succ, numChanges_cons_cons, ih]
    simp

theorem numChanges_replicate (h : Headers) (n : Nat) :
    numChanges (List.replicate n h) = 0 := by
  cases n with
  | zero => rfl
  | succ m => rw [List.replicate_succ]; exact numChanges_cons_replicate h m

/-- Everything remaining after the strip loop was already in the map. -/
theorem mem_stripHeaders_mem :
    ∀ (ul : List String) (hs : Headers) (kv : String × String),
      kv ∈ stripHeaders hs ul → kv ∈ hs := by
  intro ul
  induction ul with
  | nil => intro hs kv h; exact h
  | cons u rest ih =>
    intro hs kv h
    have h2 : kv ∈ deleteA hs u := ih (deleteA hs u) kv h
    exact (List.mem_filter.mp h2).1

/-- No key named by the unauth list survives the strip loop. -/
theorem stripHeaders_removes :
    ∀ (ul : List String) (hs : Headers) (kv : String × String),
      kv ∈ stripHeaders hs ul → kv.1 ∉ ul := by
  intro ul
  induction ul with
  | nil => intro hs kv _ hmem; simp at hmem
  | cons u rest ih =>
    intro hs kv h hmem
    have hdel : kv ∈ deleteA hs u := mem_stripHeaders_mem rest (deleteA hs u) kv h
    have hne : kv.1 ≠ u := by
      have := (List.mem_filter.mp hdel).2
      simpa using this
    have hnotrest : kv.1 ∉ rest := ih (deleteA hs u) kv h
    rcases List.mem_cons.mp hmem with h1 | h1
    · exact hne h1
    · exact hnotrest h1

end Gqlms

/-- C7: the header map changes at most once per run: its successive values
are the initial map for the schema fetch, then — only when the unauth list
is non-empty — the stripped map, constant across every per-mutation
request; with an empty unauth list the map never changes, and no header
named in the unauth list survives the strip. -/
theorem claim_c7_single_strip :
    ∀ (h0 : Gqlms.Headers) (ul : List String) (names : List String),
      Gqlms.headerStates h0 (Gqlms.mainEvents ul names) =
        (if ul = [] then List.replicate (names.length + 2) h0
         else h0 :: h0 :: List.replicate (names.length + 1) (Gqlms.stripHeaders h0 ul)) ∧
      Gqlms.numChanges (Gqlms.headerStates h0 (Gqlms.mainEvents ul names)) ≤ 1 ∧
      (ul = [] →
        Gqlms.numChanges (Gqlms.headerStates h0 (Gqlms.mainEvents ul names)) = 0) ∧
      (∀ kv : String × String, kv ∈ Gqlms.stripHeaders h0 ul → kv.1 ∉ ul) := by
  intro h0 ul names
  have hform : Gqlms.headerStates h0 (Gqlms.mainEvents ul names) =
      (if ul = [] then List.replicate (names.length + 2) h0
       else h0 :: h0 :: List.replicate (names.length + 1) (Gqlms.stripHeaders h0 ul)) := by
    cases ul with
    | nil =>
      simp only [Gqlms.headerStates, Gqlms.mainEvents, List.length_nil, if_pos rfl]
      simp only [Nat.lt_irrefl, if_false, List.nil_append, List.scanl_cons, Gqlms.applyEvent]
      rw [Gqlms.scanl_testEvents]
      simp [List.replicate_succ]
    | cons u rest =>
      simp only [Gqlms.headerStates, Gqlms.mainEvents, List.length_cons]
      have : (u :: rest : List String) ≠ [] := by simp
      rw [if_neg this]
      simp only [Nat.succ_pos, if_pos, List.singleton_append, List.scanl_cons, Gqlms.applyEvent]
      rw [Gqlms.scanl_testEvents]
  refine ⟨hform, ?_, ?_, Gqlms.stripHeaders_removes ul h0⟩
  · rw [hform]
    by_cases hul : ul = []
    · rw [if_pos hul, Gqlms.numChanges_replicate]
      exact Nat.zero_le 1
    · rw [if_neg hul]
      rw [Gqlms.numChanges_cons_cons, List.replicate_succ, Gqlms.numChanges_cons_cons]
      rw [Gqlms.numChanges_cons_replicate, if_pos rfl]
      split <;> omega
  · intro hul
    rw [hform, if_pos hul, Gqlms.numChanges_replicate]

/-- Witness for `claim_c7_single_strip`: with an empty unauth list the map
is never mutated, and a stripped header name is gone from the map. -/
theorem claim_c7_single_strip_witness :
    Gqlms.numChanges
      (Gqlms.headerStates [("Authorization", "tok")] (Gqlms.mainEvents [] ["m1"])) = 0 ∧
    ("Host", "h").1 ∉ (["Authorization"] : List String) :=
  ⟨(claim_c7_single_strip [("Authorization", "tok")] [] ["m1"]).2.2.1 rfl,
   (claim_c7_single_strip [("Host", "h"), ("Authorization", "tok")] ["Authorization"] []).2.2.2
     ("Host", "h") (by decide)⟩

namespace Gqlms

theorem charToNat_ofNat_of_lt {n : Nat} (h : n < 55296) : (Char.ofNat n).toNat = n := by
  have hv : n.isValidChar := Or.inl h
  simp only [Char.ofNat, dif_pos hv]
  rfl

theorem toUpper_toUpper (c : Char) : c.toUpper.toUpper = c.toUpper := by
  by_cases h : c.toNat ≥ 97 ∧ c.toNat ≤ 122
  · have h1 : c.toUpper = Char.ofNat (c.toNat - 32) := by simp [Char.toUpper, h]
    have h2 : (Char.ofNat (c.toNat - 32)).toNat = c.toNat - 32 :=
      charToNat_ofNat_of_lt (by omega)
    rw [h1]
    simp only [Char.toUpper, h2]
    rw [if_neg (by omega)]
  · have h1 : c.toUpper = c := by simp [Char.toUpper, h]
    rw [h1]
    exact h1

theorem toLower_toLower (c : Char) : c.toLower.toLower = c.toLower := by
  by_cases h : c.toNat ≥ 65 ∧ c.toNat ≤ 90
  · have h1 : c.toLower = Char.ofNat (c.toNat + 32) := by simp [Char.toLower, h]
    have h2 : (Char.ofNat (c.toNat + 32)).toNat = c.toNat + 32 :=
      charToNat_ofNat_of_lt (by omega)
    rw [h1]
    simp only [Char.toLower, h2]
    rw [if_neg (by omega)]
  · have h1 : c.toLower = c := by simp [Char.toLower, h]
    rw [h1]
    exact h1

theorem isTokenChar_toUpper {c : Char} (h : isTokenChar c = true) :
    isTokenChar c.toUpper = true := by
  by_cases hr : c.toNat ≥ 97 ∧ c.toNat ≤ 122
  · have h1 : c.toUpper = Char.ofNat (c.toNat - 32) := by simp [Char.toUpper, hr]
    have h2 : (Char.ofNat (c.toNat - 32)).toNat = c.toNat - 32 :=
      charToNat_ofNat_of_lt (by omega)
    rw [h1]
    simp only [isTokenChar, h2, Bool.or_eq_true, Bool.and_eq_true, decide_eq_true_eq,
      beq_iff_eq]
    omega
  · have h1 : c.toUpper = c := by simp [Char.toUpper, hr]
    rw [h1]
    exact h

theorem isTokenChar_toLower {c : Char} (h : isTokenChar c = true) :
    isTokenChar c.toLower = true := by
  by_cases hr : c.toNat ≥ 65 ∧ c.toNat ≤ 90
  · have h1 : c.toLower = Char.ofNat (c.toNat + 32) := by simp [Char.toLower, hr]
    have h2 : (Char.ofNat (c.toNat + 32)).toNat = c.toNat + 32 :=
      charToNat_ofNat_of_lt (by omega)
    rw [h1]
    simp only [isTokenChar, h2, Bool.or_eq_true, Bool.and_eq_true, decide_eq_true_eq,
      beq_iff_eq]
    omega
  · have h1 : c.toLower = c := by simp [Char.toLower, hr]
    rw [h1]
    exact h

theorem canonChar_canonChar (u : Bool) (c : Char) :
    canonChar u (canonChar u c) = canonChar u c := by
  cases u <;> simp [canonChar, toUpper_toUpper, toLower_toLower]

theorem isTokenChar_canonChar (u : Bool) {c : Char} (h : isTokenChar c = true) :
    isTokenChar (canonChar u c) = true := by
  cases u <;> simp [canonChar, isTokenChar_toUpper h, isTokenChar_toLower h]

theorem canonLoop_cons (u : Bool) (a : Char) (l : List Char) :
    canonLoop u (a :: l) = canonChar u a :: canonLoop (canonChar u a == '-') l := by
  simp [canonLoop]

theorem canonLoop_canonLoop :
    ∀ (l : List Char) (u : Bool), canonLoop u (canonLoop u l) = canonLoop u l := by
  intro l
  induction l with
  | nil => intro u; rfl
  | cons c rest ih =>
    intro u
    rw [canonLoop_cons u c rest, canonLoop_cons u (canonChar u c), canonChar_canonChar, ih]

theorem all_isTokenChar_canonLoop :
    ∀ (l : List Char) (u : Bool),
      l.all isTokenChar = true → (canonLoop u l).all isTokenChar = true := by
  intro l
  induction l with
  | nil => intro u h; exact h
  | cons c rest ih =>
    intro u h
    rw [canonLoop_cons]
    simp only [List.all_cons, Bool.and_eq_true] at h ⊢
    exact ⟨isTokenChar_canonChar u h.1, ih _ h.2⟩

/-- `http.CanonicalHeaderKey` is idempotent: its image is exactly the set
of canonical keys. -/
theorem canonicalHeaderKey_idem (s : String) :
    canonicalHeaderKey (canonicalHeaderKey s) = canonicalHeaderKey s := by
  by_cases h : s.toList.all isTokenChar = true
  · have h1 : canonicalHeaderKey s = (canonLoop true s.toList).asString := by
      unfold canonicalHeaderKey
      rw [if_pos h]
    have h2 : ((canonLoop true s.toList).asString).toList = canonLoop true s.toList := rfl
    have h3 : ((canonLoop true s.toList).asString).toList.all isTokenChar = true := by
      rw [h2]
      exact all_isTokenChar_canonLoop _ _ h
    rw [h1]
    unfold canonicalHeaderKey
    rw [if_pos h3, h2, canonLoop_canonLoop]
  · have h1 : canonicalHeaderKey s = s := by
      unfold canonicalHeaderKey
      rw [if_neg h]
    rw [h1]
    exact h1

theorem mem_insertA :
    ∀ (hs : Headers) (k v : String) (kv : String × String),
      kv ∈ insertA hs k v → kv.1 = k ∨ kv ∈ hs := by
  intro hs
  induction hs with
  | nil =>
    intro k v kv h
    simp only [insertA, List.mem_singleton] at h
    left
    rw [h]
  | cons p rest ih =>
    obtain ⟨k0, v0⟩ := p
    intro k v kv h
    by_cases hp : k0 = k
    · rw [insertA, if_pos hp] at h
      rcases List.mem_cons.mp h with h1 | h1
      · left; rw [h1]; exact hp
      · right; exact List.mem_cons_of_mem _ h1
    · rw [insertA, if_neg hp] at h
      rcases List.mem_cons.mp h with h1 | h1
      · right; rw [h1]; exact List.mem_cons_self _ _
      · rcases ih k v kv h1 with h2 | h2
        · left; exact h2
        · right; exact List.mem_cons_of_mem _ h2

theorem parseLine_keys_canonical (st : ParseState) (line : String)
    (hinv : ∀ kv ∈ st.headers, canonicalHeaderKey kv.1 = kv.1) :
    ∀ kv ∈ (parseLine st line).headers, canonicalHeaderKey kv.1 = kv.1 := by
  intro kv hkv
  simp only [parseLine] at hkv
  split at hkv
  · exact hinv kv hkv
  · split at hkv
    · exact hinv kv hkv
    · split at hkv
      · split at hkv
        · exact hinv kv hkv
        · exact hinv kv hkv
      · split at hkv
        · split at hkv
          · rcases mem_insertA _ _ _ _ hkv with h1 | h1
            · rw [h1]; exact canonicalHeaderKey_idem _
            · exact hinv kv h1
          · exact hinv kv hkv
        · exact hinv kv hkv

theorem parseFold_keys_canonical :
    ∀ (lines : List String) (st : ParseState),
      (∀ kv ∈ st.headers, canonicalHeaderKey kv.1 = kv.1) →
      ∀ kv ∈ (lines.foldl parseLine st).headers, canonicalHeaderKey kv.1 = kv.1 := by
  intro lines
  induction lines with
  | nil => intro st h; exact h
  | cons l rest ih =>
    intro st h
    exact ih (parseLine st l) (parseLine_keys_canonical st l h)

end Gqlms

/-- C8 counterexample: a header captured as `x-api-key` is stored under the
canonicalized key `X-Api-Key`, not under its captured spelling — header-name
case is not preserved by the request-file parser. -/
theorem claim_c8_counterexample :
    Gqlms.parseRequestFile
        ["POST /api/graphql HTTP/1.1", "Host: example.com", "x-api-key: topsecret", "",
         "\x7b\"query\":\"\x7b__typename\x7d\"\x7d"] true =
      Except.ok ("https://example.com/api/graphql",
        [("Host", "example.com"), ("X-Api-Key", "topsecret")],
        "\x7b\"query\":\"\x7b__typename\x7d\"\x7d") ∧
    Gqlms.lookupA [("Host", "example.com"), ("X-Api-Key", "topsecret")] "x-api-key" = none := by
  constructor
  · rfl
  · decide

/-- C8 amended: the parser stores header names canonicalized by
`http.CanonicalHeaderKey` (first letter and letters after hyphens
upper-cased, the rest lower-cased, for token-valid names), so every key in
the produced credential map is a fixed point of canonicalization rather
than the captured spelling. -/
theorem claim_c8_amended_canonical_keys :
    ∀ (lines : List String) (useSSL : Bool) (ep : String) (hs : Gqlms.Headers) (body : String),
      Gqlms.parseRequestFile lines useSSL = Except.ok (ep, hs, body) →
      ∀ kv ∈ hs, Gqlms.canonicalHeaderKey kv.1 = kv.1 := by
  intro lines useSSL ep hs body h kv hkv
  have hall := Gqlms.parseFold_keys_canonical lines
    { headers := [], endpointPath := "", body := "", isBody := false }
    (by intro kv hk; simp at hk)
  simp only [Gqlms.parseRequestFile] at h
  split at h
  · exact absurd h (by simp)
  · split at h
    · rw [Except.ok.injEq, Prod.mk.injEq, Prod.mk.injEq] at h
      rw [← h.2.1] at hkv
      exact hall kv hkv
    · split at h
      · exact absurd h (by simp)
      · rw [Except.ok.injEq, Prod.mk.injEq, Prod.mk.injEq] at h
        rw [← h.2.1] at hkv
        exact hall kv hkv

/-- Witness for `claim_c8_amended_canonical_keys`. -/
theorem claim_c8_amended_canonical_keys_witness :
    Gqlms.canonicalHeaderKey ("X-Api-Key", "topsecret").1 = ("X-Api-Key", "topsecret").1 :=
  claim_c8_amended_canonical_keys
    ["POST /api/graphql HTTP/1.1", "Host: example.com", "x-api-key: topsecret", "",
     "\x7b\"query\":\"\x7b__typename\x7d\"\x7d"] true
    "https://example.com/api/graphql"
    [("Host", "example.com"), ("X-Api-Key", "topsecret")]
    "\x7b\"query\":\"\x7b__typename\x7d\"\x7d"
    (by rfl) ("X-Api-Key", "topsecret") (by decide)
